import Mathlib

/-!
Verification of the global-attribution-mapping driver (`gam/gam.py`).

The source file orchestrates a pipeline: read a csv of local attributions,
normalize the rows, cluster the normalized rows with a K-Medoids clusterer,
and turn the medoid rows into labeled explanations.  The clusterer, the two
rank-distance functions and the silhouette scorer live outside the file under
verification; they are taken as parameters (the clusterer and the scorer) or
modelled from the specification (the two distance functions).

Real numbers of the program are embedded as rationals (`ℚ`).  Where the
floating-point behaviour of a division by zero matters, a second embedding
`GAM.normalizeF` models the IEEE `0/0 = nan` outcome as `Option.none`.
-/

namespace GamSpec

/-- Sum of the absolute values of a row: the per-row `total` computed by
`np.abs(attributions).sum(axis=1, keepdims=True)` in `GAM.normalize`. -/
def absSum (row : List ℚ) : ℚ :=
  (row.map (fun x => |x|)).sum

/-- Embeds the static method `GAM.normalize`: every entry is replaced by its
absolute value divided by the row total of absolute values
(`np.abs(attributions) / total`), with no guard on a zero total. -/
def GAM.normalize (attributions : List (List ℚ)) : List (List ℚ) :=
  attributions.map (fun row => row.map (fun x => |x| / absSum row))

/-- Division as floating point performs it in `GAM.normalize`: a quotient with
a zero denominator is not a (rational) number — numpy produces `nan` there —
so it is modelled as `none`. -/
def fdiv (x y : ℚ) : Option ℚ :=
  if y = 0 then none else some (x / y)

/-- Embeds `GAM.normalize` at the floating-point level of abstraction: the
same unguarded elementwise quotient, but a division by a zero row total
yields `none` (numpy `nan`) instead of a junk value. -/
def GAM.normalizeF (attributions : List (List ℚ)) : List (List (Option ℚ)) :=
  attributions.map (fun row => row.map (fun x => fdiv |x| (absSum row)))

/-- Embeds the static method `GAM.get_subpopulation_sizes`: a `Counter` over
the membership array gives the count of each cluster id, and the sizes are
listed by ascending id (`[index_to_size[i] for i in sorted(index_to_size)]`;
`dedup` plays the part of the counter keys, `insertionSort` of `sorted`). -/
def GAM.get_subpopulation_sizes (subpopulations : List ℕ) : List ℕ :=
  ((subpopulations.dedup).insertionSort (· ≤ ·)).map
    (fun i => subpopulations.count i)

/-- Embeds the method `GAM._get_explanations`: for each center index, zip the
feature labels with the normalized attribution row at that index.  The
normalized matrix and label list are the instance fields the method reads. -/
def GAM.get_explanations (normalized : List (List ℚ)) (labels : List String)
    (centers : List ℕ) : List (List (String × ℚ)) :=
  centers.map (fun c => labels.zip (normalized.getD c []))

/-! ### Arithmetic helper lemmas -/

theorem sum_map_div (l : List ℚ) (t : ℚ) :
    (l.map (fun x => x / t)).sum = l.sum / t := by
  induction l with
  | nil => simp
  | cons a l ih => simp [ih, add_div]

theorem absSum_nonneg (row : List ℚ) : 0 ≤ absSum row := by
  refine List.sum_nonneg ?_
  intro x hx
  rcases List.mem_map.1 hx with ⟨y, _, rfl⟩
  exact abs_nonneg y

theorem normalize_entry_nonneg (row : List ℚ) (x : ℚ) :
    0 ≤ |x| / absSum row :=
  div_nonneg (abs_nonneg x) (absSum_nonneg row)

/-- A row of `GAM.normalize` applied to a row with nonzero absolute sum sums
to `1` after taking absolute values. -/
theorem normalize_row_absSum (row : List ℚ) (h : absSum row ≠ 0) :
    ((row.map (fun x => |x| / absSum row)).map (fun x => |x|)).sum = 1 := by
  have habs : (row.map (fun x => |x| / absSum row)).map (fun x => |x|)
      = (row.map (fun x => |x|)).map (fun x => x / absSum row) := by
    simp only [List.map_map]
    refine List.map_congr_left ?_
    intro x _
    exact abs_of_nonneg (normalize_entry_nonneg row x)
  rw [habs, sum_map_div]
  exact div_self h

theorem sum_map_add_nat {α : Type} (l : List α) (f g : α → ℕ) :
    (l.map (fun x => f x + g x)).sum = (l.map f).sum + (l.map g).sum := by
  induction l with
  | nil => simp
  | cons a l ih => simp [ih]; omega

theorem sum_map_indicator_zero (t : List ℕ) (a : ℕ) (ha : a ∉ t) :
    (t.map (fun x => if a = x then 1 else 0)).sum = 0 := by
  induction t with
  | nil => simp
  | cons b t ih =>
    have hba : a ≠ b := fun h => ha (h ▸ List.mem_cons_self b t)
    have hat : a ∉ t := fun h => ha (List.mem_cons_of_mem b h)
    simp [hba, ih hat]

theorem sum_map_indicator_one (t : List ℕ) (a : ℕ) (hn : t.Nodup)
    (ha : a ∈ t) : (t.map (fun x => if a = x then 1 else 0)).sum = 1 := by
  induction t with
  | nil => exact absurd ha (List.not_mem_nil a)
  | cons b t ih =>
    by_cases hab : a = b
    · subst hab
      have hbt : a ∉ t := (List.nodup_cons.1 hn).1
      simp [sum_map_indicator_zero t a hbt]
    · have hat : a ∈ t := by
        rcases List.mem_cons.1 ha with h | h
        · exact absurd h hab
        · exact h
      simp [hab, ih (List.nodup_cons.1 hn).2 hat]

/-- Summing the multiplicity of each distinct element recovers the length. -/
theorem sum_count_dedup (l : List ℕ) :
    (l.dedup.map (fun x => l.count x)).sum = l.length := by
  induction l with
  | nil => simp
  | cons a l ih =>
    by_cases ha : a ∈ l
    · rw [List.dedup_cons_of_mem ha]
      have hmap : l.dedup.map (fun x => (a :: l).count x)
          = l.dedup.map (fun x => l.count x + if a = x then 1 else 0) := by
        refine List.map_congr_left ?_
        intro x _
        simp [List.count_cons]
      rw [hmap, sum_map_add_nat,
        sum_map_indicator_one l.dedup a (List.nodup_dedup l)
          ((List.mem_dedup).2 ha), ih]
      simp
    · rw [List.dedup_cons_of_not_mem ha, List.map_cons, List.sum_cons]
      have hca : (a :: l).count a = 1 := by
        simp [List.count_cons, List.count_eq_zero_of_not_mem ha]
      have hmap : l.dedup.map (fun x => (a :: l).count x)
          = l.dedup.map (fun x => l.count x) := by
        refine List.map_congr_left ?_
        intro x hx
        have hxa : x ≠ a := by
          rintro rfl
          exact ha ((List.mem_dedup).1 hx)
        simp [List.count_cons, hxa]
      rw [hca, hmap, ih]
      simp [Nat.add_comm]

/-! ### Claim theorems on the pure static methods -/

/-- C3.  On a matrix whose rows all have a nonzero sum of absolute values,
every row of `GAM.normalize` has absolute values summing to 1, and on the
documented example the exact normalized rows come out. -/
theorem normalize_rows_sum_to_one (m : List (List ℚ))
    (h : ∀ r ∈ m, absSum r ≠ 0) :
    (∀ r ∈ GAM.normalize m, (r.map (fun x => |x|)).sum = 1) ∧
      GAM.normalize [[2, 8], [1, 9], [8, 2], [9, 1]]
        = [[2/10, 8/10], [1/10, 9/10], [8/10, 2/10], [9/10, 1/10]] := by
  constructor
  · intro r hr
    rcases List.mem_map.1 hr with ⟨row, hrow, rfl⟩
    exact normalize_row_absSum row (h row hrow)
  · norm_num [GAM.normalize, absSum]

/-- Witness for C3 at the example matrix from the specification. -/
theorem normalize_rows_sum_to_one_witness :
    (∀ r ∈ ([[(2:ℚ), 8], [1, 9], [8, 2], [9, 1]]), absSum r ≠ 0) ∧
      (∀ r ∈ GAM.normalize [[(2:ℚ), 8], [1, 9], [8, 2], [9, 1]],
        (r.map (fun x => |x|)).sum = 1) :=
  ⟨by norm_num [absSum],
    (normalize_rows_sum_to_one [[2, 8], [1, 9], [8, 2], [9, 1]]
      (by norm_num [absSum])).1⟩

/-- C9.  `GAM.normalize` is blind to the signs of its input: it agrees with
itself on the elementwise absolute value of the matrix, and (on rows with a
nonzero absolute sum) all of its entries are non-negative. -/
theorem normalize_abs_invariant (m : List (List ℚ))
    (h : ∀ r ∈ m, absSum r ≠ 0) :
    GAM.normalize m
        = GAM.normalize (m.map (fun row => row.map (fun x => |x|))) ∧
      ∀ r ∈ GAM.normalize m, ∀ x ∈ r, 0 ≤ x := by
  constructor
  · unfold GAM.normalize
    rw [List.map_map]
    refine List.map_congr_left ?_
    intro row _
    have habs : absSum (row.map (fun x => |x|)) = absSum row := by
      simp [absSum, List.map_map, Function.comp_def, abs_abs]
    simp only [Function.comp_def, habs, List.map_map, abs_abs]
  · intro r hr x hx
    rcases List.mem_map.1 hr with ⟨row, _, rfl⟩
    rcases List.mem_map.1 hx with ⟨y, _, rfl⟩
    exact normalize_entry_nonneg row y

/-- Witness for C9 at the example matrix with mixed signs. -/
theorem normalize_abs_invariant_witness :
    (∀ r ∈ ([[(-2:ℚ), 8], [1, -9]]), absSum r ≠ 0) ∧
      (GAM.normalize [[(-2:ℚ), 8], [1, -9]]
          = GAM.normalize
              (([[(-2:ℚ), 8], [1, -9]]).map
                (fun row => row.map (fun x => |x|))) ∧
        ∀ r ∈ GAM.normalize [[(-2:ℚ), 8], [1, -9]], ∀ x ∈ r, 0 ≤ x) :=
  ⟨by norm_num [absSum],
    normalize_abs_invariant [[(-2:ℚ), 8], [1, -9]] (by norm_num [absSum])⟩

/-- C10.  `GAM.normalize` divides with no guard: under the floating-point
model the result always exists with the shape of the input (nothing is
raised, no degenerate-row policy is applied), and an entry is a number
exactly when its row total is nonzero — on an all-zero row the entry is the
unguarded quotient `0/0`, modelled as `none`. -/
theorem normalizeF_unguarded (m : List (List ℚ)) (i j : ℕ)
    (hi : i < m.length) (hj : j < (m.getD i []).length) :
    (GAM.normalizeF m).length = m.length ∧
      ((GAM.normalizeF m).getD i []).getD j none
        = (if absSum (m.getD i []) = 0 then none
            else some (|(m.getD i []).getD j 0| / absSum (m.getD i []))) := by
  constructor
  · simp [GAM.normalizeF]
  · have hi' : i < (GAM.normalizeF m).length := by
      simpa [GAM.normalizeF] using hi
    rw [List.getD_eq_getElem _ _ hi, List.getD_eq_getElem _ _ hi']
    have hrow : (GAM.normalizeF m)[i]
        = (m[i]).map (fun x => fdiv |x| (absSum m[i])) := by
      simp [GAM.normalizeF]
    have hj1 : j < (m[i]).length := by
      rwa [List.getD_eq_getElem _ _ hi] at hj
    have hj' : j < ((GAM.normalizeF m)[i]).length := by
      rw [hrow]
      simpa using hj1
    rw [List.getD_eq_get _ _ hj', List.getD_eq_get _ _ hj1]
    have key : ((GAM.normalizeF m)[i]).get ⟨j, hj'⟩
        = fdiv |(m[i]).get ⟨j, hj1⟩| (absSum m[i]) := by
      simp [hrow]
    rw [key, fdiv]

/-- Witness for C10: on the matrix `[[0,0],[1,3]]` the zero row yields the
undefined quotient and the other row the ordinary one. -/
theorem normalizeF_unguarded_witness :
    (((GAM.normalizeF [[(0:ℚ), 0], [1, 3]]).getD 0 []).getD 0 none
        = (if absSum (([[(0:ℚ), 0], [1, 3]]).getD 0 []) = 0 then none
            else some (|(([[(0:ℚ), 0], [1, 3]]).getD 0 []).getD 0 0|
              / absSum (([[(0:ℚ), 0], [1, 3]]).getD 0 [])))) ∧
      (((GAM.normalizeF [[(0:ℚ), 0], [1, 3]]).getD 1 []).getD 0 none
        = (if absSum (([[(0:ℚ), 0], [1, 3]]).getD 1 []) = 0 then none
            else some (|(([[(0:ℚ), 0], [1, 3]]).getD 1 []).getD 0 0|
              / absSum (([[(0:ℚ), 0], [1, 3]]).getD 1 [])))) :=
  ⟨(normalizeF_unguarded [[(0:ℚ), 0], [1, 3]] 0 0 (by decide) (by decide)).2,
    (normalizeF_unguarded [[(0:ℚ), 0], [1, 3]] 1 0 (by decide) (by decide)).2⟩

/-- C7.  For every membership array, the subpopulation sizes sum to the
number of instances, there is one size per distinct cluster id present, and
the sizes are the member counts listed along the strictly ascending order of
the distinct ids. -/
theorem get_subpopulation_sizes_spec (l : List ℕ) :
    (GAM.get_subpopulation_sizes l).sum = l.length ∧
      (GAM.get_subpopulation_sizes l).length = l.dedup.length ∧
      List.Sorted (· < ·) (List.insertionSort (· ≤ ·) l.dedup) ∧
      GAM.get_subpopulation_sizes l
        = (List.insertionSort (· ≤ ·) l.dedup).map (fun i => l.count i) := by
  refine ⟨?_, ?_, ?_, rfl⟩
  · have hperm : List.Perm (List.insertionSort (· ≤ ·) l.dedup) l.dedup :=
      List.perm_insertionSort _ _
    have := (hperm.map (fun i => l.count i)).sum_eq
    rw [GAM.get_subpopulation_sizes, this, sum_count_dedup]
  · rw [GAM.get_subpopulation_sizes, List.length_map,
      List.length_insertionSort]
  · refine List.Sorted.lt_of_le (List.sorted_insertionSort _ _) ?_
    exact (List.perm_insertionSort _ _).symm.nodup (List.nodup_dedup l)

/-- The default `String` used only to read entries out of label lists. -/
def emptyStr : String := ""

/-- C8.  `GAM._get_explanations` is the pure mapping the specification
describes: one output list per center index, in the order of the centers,
pairing the feature labels positionally with the normalized attribution row
at that center.  Being a function of its arguments, it leaves the matrix and
the labels untouched. -/
theorem get_explanations_spec (normalized : List (List ℚ))
    (labels : List String) (centers : List ℕ)
    (hc : ∀ c ∈ centers, c < normalized.length)
    (hrow : ∀ r ∈ normalized, r.length = labels.length) :
    (GAM.get_explanations normalized labels centers).length = centers.length ∧
      ∀ j, j < centers.length →
        (GAM.get_explanations normalized labels centers).getD j []
            = labels.zip (normalized.getD (centers.getD j 0) []) ∧
          ((GAM.get_explanations normalized labels centers).getD j []).length
            = labels.length ∧
          ∀ i, i < labels.length →
            ((GAM.get_explanations normalized labels centers).getD j
                []).getD i (emptyStr, 0)
              = (labels.getD i emptyStr,
                  (normalized.getD (centers.getD j 0) []).getD i 0) := by
  constructor
  · simp [GAM.get_explanations]
  · intro j hj
    have hjlen : j < (GAM.get_explanations normalized labels centers).length := by
      simpa [GAM.get_explanations] using hj
    have hcj : centers.getD j 0 = centers[j] := List.getD_eq_getElem _ _ hj
    have hmem : centers[j] ∈ centers := List.getElem_mem hj
    have hclt : centers[j] < normalized.length := hc _ hmem
    have hrowlen : (normalized[centers[j]]).length = labels.length :=
      hrow _ (List.getElem_mem hclt)
    have hrowD : normalized.getD (centers.getD j 0) [] = normalized[centers[j]] := by
      rw [hcj]
      exact List.getD_eq_getElem _ _ hclt
    have hval : (GAM.get_explanations normalized labels centers).getD j []
        = labels.zip (normalized.getD (centers.getD j 0) []) := by
      rw [List.getD_eq_getElem _ _ hjlen, hcj]
      simp [GAM.get_explanations]
    refine ⟨hval, ?_, ?_⟩
    · rw [hval, List.length_zip, hrowD, hrowlen, min_self]
    · intro i hi
      have hizip : i < (labels.zip (normalized.getD (centers.getD j 0) [])).length := by
        rw [List.length_zip, hrowD, hrowlen, min_self]
        exact hi
      have hirow : i < (normalized.getD (centers.getD j 0) []).length := by
        rw [hrowD, hrowlen]
        exact hi
      rw [hval, List.getD_eq_getElem _ _ hizip, List.getD_eq_getElem _ _ hi,
        List.getD_eq_getElem _ _ hirow]
      exact List.getElem_zip

/-- Witness for C8 on a 2×2 matrix with two labels and both rows as
centers, listed in reversed order. -/
theorem get_explanations_spec_witness :
    (∀ c ∈ ([1, 0] : List ℕ), c < ([[(1:ℚ), 2], [3, 4]]).length) ∧
      (∀ r ∈ ([[(1:ℚ), 2], [3, 4]]),
        r.length = (["height", "weight"]).length) ∧
      (GAM.get_explanations [[(1:ℚ), 2], [3, 4]] ["height", "weight"]
          [1, 0]).length = ([1, 0] : List ℕ).length :=
  ⟨by decide, by decide,
    (get_explanations_spec [[(1:ℚ), 2], [3, 4]] ["height", "weight"] [1, 0]
      (by decide) (by decide)).1⟩

/-! ### Distance metrics

The two metric modules (`gam/spearman_distance.py` and
`gam/kendall_tau_distance.py`) are imported by the driver but are not part
of the file under verification, so they are modelled from the
specification, §4.1.  Only their pointwise values matter here. -/

/-- Modelled from the spec: the rank of each entry of a vector (its position
in the sorted order, i.e. the number of strictly smaller entries). -/
def rankVector (v : List ℚ) : List ℤ :=
  v.map (fun x => ((v.filter (fun y => decide (y < x))).length : ℤ))

/-- Modelled from the spec: `spearman_squared_distance` from
`gam/spearman_distance.py` — rank each vector and compute the sum of squared
differences of ranks. -/
def spearman_squared_distance (u v : List ℚ) : ℚ :=
  (((((rankVector u).zip (rankVector v)).map
      (fun p => (p.1 - p.2) * (p.1 - p.2))).sum : ℤ) : ℚ)

/-- Modelled from the spec: the number of discordant index pairs between the
orders induced by the two vectors. -/
def discordantPairs (u v : List ℚ) : ℕ :=
  ((List.range u.length).map (fun i =>
    ((List.range u.length).filter (fun j => decide (i < j) &&
      ((decide (u.getD i 0 < u.getD j 0) && decide (v.getD j 0 < v.getD i 0))
        || (decide (u.getD j 0 < u.getD i 0)
              && decide (v.getD i 0 < v.getD j 0))))).length)).sum

/-- Modelled from the spec: `mergeSortDistance` from
`gam/kendall_tau_distance.py` — the Kendall-tau distance, whose value is the
discordant-pair count (the merge-sort inversion count computes exactly this
number; the merge-sort is a performance device, not a different value). -/
def mergeSortDistance (u v : List ℚ) : ℚ :=
  ((discordantPairs u v : ℤ) : ℚ)

/-! ### The GAM instance state and its operations -/

/-- A pairwise distance function between two attribution vectors. -/
abbrev DistFunc := List ℚ → List ℚ → ℚ

/-- What `KMedoids(...).fit(...)` leaves on the clusterer object: the
membership array `members` and the medoid index list `centers`. -/
structure ClusterResult where
  members : List ℕ
  centers : List ℕ

/-- The K-Medoids clusterer (`gam/clustering.py`, outside the file under
verification) as a black box: arguments are `n_clusters`, `dist_func`,
`max_iter`, `tol` and the data matrix, in the order `KMedoids` receives
them. -/
abbrev Fit := ℕ → DistFunc → ℕ → ℚ → List (List ℚ) → ClusterResult

/-- `sklearn.metrics.silhouette_score` with a precomputed distance matrix,
as a black box: arguments are the matrix `D` and the label array. -/
abbrev Silh := List (List ℚ) → List ℕ → ℚ

/-- The mutable fields of a `GAM` instance.  `csv_attributions` and
`csv_labels` stand for the content of the csv file at `attributions_path`;
`_read_local` copies them into `attributions` and `feature_labels`.  Fields
that `__init__` sets to `None` (or that, like `silh_scores`, only exist
after `get_optimal_clustering` ran) are `Option`s. -/
structure GAMState where
  attributions_path : String
  csv_attributions : List (List ℚ)
  csv_labels : List String
  distance : String
  k : ℕ
  attributions : Option (List (List ℚ))
  normalized_attributions : Option (List (List ℚ))
  feature_labels : Option (List String)
  subpopulations : Option (List ℕ)
  subpopulation_sizes : Option (List ℕ)
  explanations : Option (List (List (String × ℚ)))
  silh_scores : Option (List (ℚ × ℕ))

/-- Embeds `GAM._read_local`: read the attribution rows and the header of
the csv at `attributions_path` into the instance fields. -/
def GAM.read_local (s : GAMState) : GAMState :=
  { s with attributions := some s.csv_attributions,
           feature_labels := some s.csv_labels }

/-- Embeds `GAM._cluster(distance_function, max_iter, tol)`: build a
`KMedoids` clusterer with the instance's `k` and the given distance
function, fit it on the normalized attributions, and store the members, the
subpopulation sizes and the explanations on the instance.  In Python the
parameters carry defaults `spearman_squared_distance`, `1000`, `0.0001`;
they are passed explicitly here. -/
def GAM.cluster (fit : Fit) (s : GAMState) (distance_function : DistFunc)
    (max_iter : ℕ) (tol : ℚ) : GAMState :=
  let clusters := fit s.k distance_function max_iter tol
    (s.normalized_attributions.getD [])
  { s with
    subpopulations := some clusters.members,
    subpopulation_sizes :=
      some (GAM.get_subpopulation_sizes clusters.members),
    explanations := some (GAM.get_explanations
      (s.normalized_attributions.getD []) (s.feature_labels.getD [])
      clusters.centers) }

/-- Embeds `GAM.generate`: `_read_local`, then `normalize`, then
`self._cluster()`.  The call passes no arguments, so `_cluster` runs with
its declared defaults — in particular with `spearman_squared_distance`,
whatever string `self.distance` holds. -/
def GAM.generate (fit : Fit) (s : GAMState) : GAMState :=
  let s1 := GAM.read_local s
  let s2 := { s1 with
    normalized_attributions := some (GAM.normalize (s1.attributions.getD [])) }
  GAM.cluster fit s2 spearman_squared_distance 1000 (1/10000)

/-- Model of `sklearn.metrics.pairwise_distances(X, metric=my_func)`: the
matrix of pairwise metric values. -/
def pairwise_distances (m : List (List ℚ)) (f : DistFunc) : List (List ℚ) :=
  m.map (fun u => m.map (fun v => f u v))

/-- The `if self.distance == "spearman" / elif "kendall_tau"` dispatch of
`get_optimal_clustering`: any other string leaves `my_func` unbound, which
is the `none` case. -/
def lookupDistanceFunc (name : String) : Option DistFunc :=
  if name = "spearman" then some spearman_squared_distance
  else if name = "kendall_tau" then some mergeSortDistance
  else none

/-- The candidate cluster counts `range(2, max(2, max_clusters) + 1)` of
`get_optimal_clustering`, i.e. `2, 3, ..., max 2 max_clusters`. -/
def candidateKs (max_clusters : ℕ) : List ℕ :=
  List.range' 2 (max 2 max_clusters - 1)

/-- The scan loop of `get_optimal_clustering`: for each candidate `n`, set
`self.k = n`, run `generate`, dispatch the distance name, score the
partition against the precomputed pairwise matrix and record
`(score, n)`.  An unknown distance name raises (`my_func` unbound) after
`generate` already mutated the instance: the `.error` carries the mutated
state the exception leaves behind. -/
def GAM.optimalScan (fit : Fit) (silh : Silh) :
    GAMState → List ℕ → List (ℚ × ℕ) →
      Except GAMState (GAMState × List (ℚ × ℕ))
  | s, [], acc => .ok (s, acc)
  | s, n :: rest, acc =>
    let s1 := GAM.generate fit { s with k := n }
    match lookupDistanceFunc s1.distance with
    | none => .error s1
    | some f =>
      let D := pairwise_distances (s1.normalized_attributions.getD []) f
      let score := silh D (s1.subpopulations.getD [])
      GAM.optimalScan fit silh s1 rest (acc ++ [(score, n)])

/-- The order under which Python sorts the `(score, k)` tuples of
`silh_list`: lexicographic, score first, then `k`. -/
def scoreLE (a b : ℚ × ℕ) : Prop :=
  a.1 < b.1 ∨ (a.1 = b.1 ∧ a.2 ≤ b.2)

instance : DecidableRel scoreLE := fun a b =>
  inferInstanceAs (Decidable (a.1 < b.1 ∨ (a.1 = b.1 ∧ a.2 ≤ b.2)))

instance : IsTotal (ℚ × ℕ) scoreLE where
  total a b := by
    rcases lt_trichotomy a.1 b.1 with h | h | h
    · exact Or.inl (Or.inl h)
    · rcases le_total a.2 b.2 with h2 | h2
      · exact Or.inl (Or.inr ⟨h, h2⟩)
      · exact Or.inr (Or.inr ⟨h.symm, h2⟩)
    · exact Or.inr (Or.inl h)

instance : IsTrans (ℚ × ℕ) scoreLE where
  trans a b c hab hbc := by
    rcases hab with h1 | h1 <;> rcases hbc with h2 | h2
    · exact Or.inl (h1.trans h2)
    · exact Or.inl (lt_of_lt_of_eq h1 h2.1)
    · exact Or.inl (lt_of_eq_of_lt h1.1 h2)
    · exact Or.inr ⟨h1.1.trans h2.1, h1.2.trans h2.2⟩

/-- `silh_list.sort()`: Python sorts the `(score, k)` tuples ascending under
the lexicographic tuple order (a stable sort; on this total order the
sorted list is unique, so `insertionSort` embeds it exactly). -/
def pySortScores (l : List (ℚ × ℕ)) : List (ℚ × ℕ) :=
  List.insertionSort scoreLE l

/-- `self.silh_scores[-1]` after the sort: the last tuple of the sorted
score list (the dummy default is unreachable — the scan list is never
empty because the candidate range always holds at least `k = 2`). -/
def selectBest (l : List (ℚ × ℕ)) : ℚ × ℕ :=
  (pySortScores l).getLast?.getD (0, 0)

/-- Embeds `GAM.get_optimal_clustering(max_clusters)`: scan the candidate
range, store the sorted score list on the instance, pick the `k` of the
last (highest) entry and regenerate with it.  A raised exception is
`.error` carrying the instance state it leaves behind. -/
def GAM.get_optimal_clustering (fit : Fit) (silh : Silh) (s : GAMState)
    (max_clusters : ℕ) : Except GAMState GAMState :=
  match GAM.optimalScan fit silh s (candidateKs max_clusters) [] with
  | .error e => .error e
  | .ok (s1, silh_list) =>
    let s2 := { s1 with silh_scores := some (pySortScores silh_list) }
    let nCluster := (selectBest silh_list).2
    .ok (GAM.generate fit { s2 with k := nCluster })

/-- Projection of a run that raised: the instance state at the raise. -/
def exceptErrorState : Except GAMState GAMState → Option GAMState
  | .error s => some s
  | .ok _ => none

/-- Projection of a run that returned normally: the final instance state. -/
def exceptOkState : Except GAMState GAMState → Option GAMState
  | .ok s => some s
  | .error _ => none

/-! ### Structural facts about `generate` -/

theorem generate_distance (fit : Fit) (x : GAMState) :
    (GAM.generate fit x).distance = x.distance := rfl

theorem generate_k (fit : Fit) (x : GAMState) :
    (GAM.generate fit x).k = x.k := rfl

theorem generate_csv (fit : Fit) (x : GAMState) :
    (GAM.generate fit x).csv_attributions = x.csv_attributions := rfl

theorem generate_subpopulations (fit : Fit) (x : GAMState) :
    (GAM.generate fit x).subpopulations
      = some (fit x.k spearman_squared_distance 1000 (1/10000)
          (GAM.normalize x.csv_attributions)).members := rfl

theorem generate_sizes (fit : Fit) (x : GAMState) :
    (GAM.generate fit x).subpopulation_sizes
      = some (GAM.get_subpopulation_sizes
          (fit x.k spearman_squared_distance 1000 (1/10000)
            (GAM.normalize x.csv_attributions)).members) := rfl

theorem generate_explanations (fit : Fit) (x : GAMState) :
    (GAM.generate fit x).explanations
      = some (GAM.get_explanations (GAM.normalize x.csv_attributions)
          x.csv_labels
          (fit x.k spearman_squared_distance 1000 (1/10000)
            (GAM.normalize x.csv_attributions)).centers) := rfl

theorem scoreLE_refl (a : ℚ × ℕ) : scoreLE a a := Or.inr ⟨rfl, le_refl _⟩

/-- In a list sorted under the Python tuple order, the last element
dominates every member. -/
theorem sorted_getLast_max :
    ∀ (l : List (ℚ × ℕ)), List.Sorted scoreLE l → ∀ (hne : l ≠ [])
      (q : ℚ × ℕ), q ∈ l → scoreLE q (l.getLast hne)
  | [], _, hne, _, _ => absurd rfl hne
  | a :: t, hs, hne, q, hq => by
    rcases List.mem_cons.1 hq with rfl | hqt
    · by_cases ht : t = []
      · subst ht
        exact scoreLE_refl q
      · rw [List.getLast_cons ht]
        exact (List.sorted_cons.1 hs).1 _ (List.getLast_mem ht)
    · have ht : t ≠ [] := List.ne_nil_of_mem hqt
      rw [List.getLast_cons ht]
      exact sorted_getLast_max t (List.sorted_cons.1 hs).2 ht q hqt

/-- C2 amended.  The selection made by `get_optimal_clustering` (sort the
`(score, k)` list, take the last tuple) returns a recorded candidate whose
score is maximal — but a tie on the score is broken towards the LARGER `k`,
not the smaller one. -/
theorem selectBest_spec (l : List (ℚ × ℕ)) (h : l ≠ []) :
    selectBest l ∈ l ∧
      ∀ q ∈ l, q.1 ≤ (selectBest l).1 ∧
        (q.1 = (selectBest l).1 → q.2 ≤ (selectBest l).2) := by
  have hperm : List.Perm (pySortScores l) l := List.perm_insertionSort _ _
  have hne : pySortScores l ≠ [] := by
    intro h0
    exact h (List.Perm.eq_nil ((h0 ▸ hperm).symm))
  have hlast : selectBest l = (pySortScores l).getLast hne := by
    rw [selectBest, List.getLast?_eq_getLast_of_ne_nil hne]
    rfl
  have hsorted : List.Sorted scoreLE (pySortScores l) :=
    List.sorted_insertionSort _ _
  constructor
  · rw [hlast]
    exact hperm.mem_iff.1 (List.getLast_mem hne)
  · intro q hq
    have hq1 : q ∈ pySortScores l := hperm.mem_iff.2 hq
    have hle := sorted_getLast_max (pySortScores l) hsorted hne q hq1
    rw [← hlast] at hle
    rcases hle with h1 | h1
    · exact ⟨le_of_lt h1, fun he => absurd he (ne_of_lt h1)⟩
    · exact ⟨le_of_eq h1.1, fun _ => h1.2⟩

/-- Witness for the amended C2 at a concrete tied score list. -/
theorem selectBest_spec_witness :
    ([((1:ℚ), 5), (2, 3), (2, 2)] : List (ℚ × ℕ)) ≠ [] ∧
      selectBest [((1:ℚ), 5), (2, 3), (2, 2)]
        ∈ ([((1:ℚ), 5), (2, 3), (2, 2)] : List (ℚ × ℕ)) :=
  ⟨by decide, (selectBest_spec [((1:ℚ), 5), (2, 3), (2, 2)] (by decide)).1⟩

/-! ### Concrete instantiations -/

/-- The example attribution table of the specification, §8. -/
def sampleData : List (List ℚ) := [[2, 8], [1, 9], [8, 2], [9, 1]]

/-- The example feature labels of the source docstrings. -/
def sampleLabels : List String := ["height", "weight"]

/-- A simple deterministic stand-in clusterer used to instantiate the
parametric theorems at concrete inputs: members cycle through the cluster
ids, centers are the first `k` indices. -/
def sampleFit : Fit := fun k _dist _maxIter _tol data =>
  { members := (List.range data.length).map (fun i => i % k),
    centers := List.range k }

/-- A silhouette stand-in that scores every partition 0, so that every
candidate `k` ties. -/
def constSilh : Silh := fun _D _members => 0

/-- A freshly constructed instance over the sample csv with the default
configuration (`distance="spearman"`, `k=2`). -/
def baseState : GAMState :=
  { attributions_path := "local_attributions.csv",
    csv_attributions := sampleData,
    csv_labels := sampleLabels,
    distance := "spearman",
    k := 2,
    attributions := none,
    normalized_attributions := none,
    feature_labels := none,
    subpopulations := none,
    subpopulation_sizes := none,
    explanations := none,
    silh_scores := none }

/-- The sample instance configured with the Kendall-tau distance name. -/
def kendallState : GAMState := { baseState with distance := "kendall_tau" }

/-- The sample instance configured with an unsupported distance name. -/
def manhattanState : GAMState := { baseState with distance := "manhattan" }

/-- C2 counterexample.  With every candidate scoring the same silhouette
(recorded scores `[(0, 2), (0, 3)]`), automatic selection picks `k = 3` —
the larger tied candidate — where the claim requires the smaller `k = 2`. -/
theorem tie_breaks_to_larger_k :
    (exceptOkState (GAM.get_optimal_clustering sampleFit constSilh
        baseState 3)).map (fun t => t.k) = some 3 ∧
      (exceptOkState (GAM.get_optimal_clustering sampleFit constSilh
          baseState 3)).map (fun t => t.silh_scores)
        = some (some [(0, 2), (0, 3)]) := by
  constructor
  · rfl
  · rfl

/-- C1.  `generate` never passes the configured distance function to the
K-Medoids clusterer: even on an instance whose distance name is
`"kendall_tau"`, the members stored by `generate` come from a clusterer run
with `spearman_squared_distance` (the `_cluster` default), whatever
clusterer `fit` is plugged in — and the two metrics genuinely differ, as
shown at the vectors `[0,1,2]` and `[2,0,1]`. -/
theorem generate_passes_default_distance (fit : Fit) (s : GAMState)
    (h : s.distance = "kendall_tau") :
    (GAM.generate fit s).subpopulations
        = some (fit s.k spearman_squared_distance 1000 (1/10000)
            (GAM.normalize s.csv_attributions)).members ∧
      spearman_squared_distance [0, 1, 2] [2, 0, 1]
        ≠ mergeSortDistance [0, 1, 2] [2, 0, 1] := by
  refine ⟨generate_subpopulations fit s, ?_⟩
  decide

/-- Witness for C1 at the kendall-tau-configured sample instance. -/
theorem generate_passes_default_distance_witness :
    kendallState.distance = "kendall_tau" ∧
      ((GAM.generate sampleFit kendallState).subpopulations
          = some (sampleFit kendallState.k spearman_squared_distance 1000
              (1/10000)
              (GAM.normalize kendallState.csv_attributions)).members ∧
        spearman_squared_distance [0, 1, 2] [2, 0, 1]
          ≠ mergeSortDistance [0, 1, 2] [2, 0, 1]) :=
  ⟨rfl, generate_passes_default_distance sampleFit kendallState rfl⟩

/-- C4 counterexample.  On the sample instance configured with the unknown
distance name `"manhattan"`, `get_optimal_clustering` does raise — but only
after a full clustering run: the state the exception leaves behind carries
the computed membership `[0, 1, 0, 1]`.  And plain `generate` does not fail
at all: it stores that same membership, silently clustered with the default
Spearman distance. -/
theorem unknown_distance_counterexample :
    (exceptErrorState (GAM.get_optimal_clustering sampleFit constSilh
        manhattanState 2)).map (fun t => t.subpopulations)
      = some (some [0, 1, 0, 1]) ∧
      (GAM.generate sampleFit manhattanState).subpopulations
        = some [0, 1, 0, 1] := by
  constructor
  · rfl
  · rfl

/-- C4 amended.  An unrecognized distance name is not validated anywhere:
`generate` succeeds, clustering with the default Spearman distance, and
`get_optimal_clustering` raises (`my_func` unbound) only after the first
candidate's full clustering run — the raised-at state is exactly the
instance mutated by `generate` with `k = 2`, membership included. -/
theorem unknown_distance_not_validated (fit : Fit) (silh : Silh)
    (s : GAMState) (mc : ℕ) (h : lookupDistanceFunc s.distance = none) :
    GAM.get_optimal_clustering fit silh s mc
        = .error (GAM.generate fit { s with k := 2 }) ∧
      (GAM.generate fit s).subpopulations
        = some (fit s.k spearman_squared_distance 1000 (1/10000)
            (GAM.normalize s.csv_attributions)).members := by
  refine ⟨?_, generate_subpopulations fit s⟩
  have hks : candidateKs mc = 2 :: List.range' 3 (max 2 mc - 2) := by
    unfold candidateKs
    have h2 : max 2 mc - 1 = (max 2 mc - 2) + 1 := by omega
    rw [h2]
    rfl
  have hd : lookupDistanceFunc (GAM.generate fit { s with k := 2 }).distance
      = none := by
    rw [generate_distance]
    exact h
  rw [GAM.get_optimal_clustering, hks]
  simp [GAM.optimalScan, hd]

/-- Witness for the amended C4 at the manhattan-configured instance. -/
theorem unknown_distance_not_validated_witness :
    lookupDistanceFunc manhattanState.distance = none ∧
      (GAM.get_optimal_clustering sampleFit constSilh manhattanState 2
          = .error (GAM.generate sampleFit { manhattanState with k := 2 }) ∧
        (GAM.generate sampleFit manhattanState).subpopulations
          = some (sampleFit manhattanState.k spearman_squared_distance 1000
              (1/10000)
              (GAM.normalize manhattanState.csv_attributions)).members) :=
  ⟨rfl,
    unknown_distance_not_validated sampleFit constSilh manhattanState 2 rfl⟩

/-- C5 counterexample.  With the default `max_clusters = 2` the candidate
range holds the single value `k = 2`, yet automatic selection completes
without any error: it returns a final state (no exception), with the single
recorded score pair `(0, 2)`. -/
theorem single_candidate_no_error :
    (exceptOkState (GAM.get_optimal_clustering sampleFit constSilh
        baseState 2)).isSome = true ∧
      exceptErrorState (GAM.get_optimal_clustering sampleFit constSilh
        baseState 2) = none ∧
      (exceptOkState (GAM.get_optimal_clustering sampleFit constSilh
          baseState 2)).map (fun t => t.silh_scores)
        = some (some [(0, 2)]) := by
  refine ⟨rfl, rfl, rfl⟩

/-- C5 amended.  A candidate range with fewer than 2 values is impossible:
`max_clusters` is clamped to at least 2, so for any `max_clusters ≤ 2` (and
any recognized distance name) the scan evaluates the single candidate
`k = 2` and returns a result whose `k` is 2 — no error is raised. -/
theorem small_range_returns_k2 (fit : Fit) (silh : Silh) (s : GAMState)
    (mc : ℕ) (hmc : mc ≤ 2) (hd : (lookupDistanceFunc s.distance).isSome) :
    (exceptOkState (GAM.get_optimal_clustering fit silh s mc)).map
      (fun t => t.k) = some 2 := by
  rcases Option.isSome_iff_exists.1 hd with ⟨f, hf⟩
  have hks : candidateKs mc = [2] := by
    unfold candidateKs
    rw [max_eq_left hmc]
    rfl
  have hd1 : lookupDistanceFunc
      (GAM.generate fit { s with k := 2 }).distance = some f := by
    rw [generate_distance]
    exact hf
  rw [GAM.get_optimal_clustering, hks]
  simp [GAM.optimalScan, hd1, exceptOkState, selectBest, pySortScores,
    List.insertionSort, List.orderedInsert, generate_k]

/-- Witness for the amended C5 at the sample instance with the default
`max_clusters = 2`. -/
theorem small_range_returns_k2_witness :
    2 ≤ 2 ∧ (lookupDistanceFunc baseState.distance).isSome = true ∧
      (exceptOkState (GAM.get_optimal_clustering sampleFit constSilh
          baseState 2)).map (fun t => t.k) = some 2 :=
  ⟨le_refl 2, rfl,
    small_range_returns_k2 sampleFit constSilh baseState 2 (le_refl 2)
      (by rfl)⟩

/-- C6.  When automatic selection completes normally, the returned state is
produced by one final `generate` run at the winning `k`: its `k` is the
selected one, and its membership, subpopulation sizes and explanations are
all derived from that single clustering run at the selected `k` — nothing
from the non-winning candidates is retained in those fields. -/
theorem get_optimal_final_regeneration (fit : Fit) (silh : Silh)
    (s : GAMState) (mc : ℕ) (sScan : GAMState) (scores : List (ℚ × ℕ))
    (h : GAM.optimalScan fit silh s (candidateKs mc) []
      = .ok (sScan, scores)) :
    GAM.get_optimal_clustering fit silh s mc
        = .ok (GAM.generate fit
            { sScan with silh_scores := some (pySortScores scores),
                         k := (selectBest scores).2 }) ∧
      (exceptOkState (GAM.get_optimal_clustering fit silh s mc)).map
          (fun t => t.k) = some (selectBest scores).2 ∧
      (exceptOkState (GAM.get_optimal_clustering fit silh s mc)).map
          (fun t => t.subpopulations)
        = some (some (fit (selectBest scores).2 spearman_squared_distance
            1000 (1/10000) (GAM.normalize sScan.csv_attributions)).members) ∧
      (exceptOkState (GAM.get_optimal_clustering fit silh s mc)).map
          (fun t => t.subpopulation_sizes)
        = some (some (GAM.get_subpopulation_sizes
            (fit (selectBest scores).2 spearman_squared_distance 1000
              (1/10000) (GAM.normalize sScan.csv_attributions)).members)) ∧
      (exceptOkState (GAM.get_optimal_clustering fit silh s mc)).map
          (fun t => t.explanations)
        = some (some (GAM.get_explanations
            (GAM.normalize sScan.csv_attributions) sScan.csv_labels
            (fit (selectBest scores).2 spearman_squared_distance 1000
              (1/10000) (GAM.normalize sScan.csv_attributions)).centers)) := by
  have h1 : GAM.get_optimal_clustering fit silh s mc
      = .ok (GAM.generate fit
          { sScan with silh_scores := some (pySortScores scores),
                       k := (selectBest scores).2 }) := by
    rw [GAM.get_optimal_clustering, h]
  refine ⟨h1, ?_, ?_, ?_, ?_⟩ <;>
    rw [h1] <;>
    simp [exceptOkState, generate_k, generate_subpopulations,
      generate_sizes, generate_explanations]

/-- Witness for C6 at the sample instance with the default candidate
range. -/
theorem get_optimal_final_regeneration_witness :
    GAM.optimalScan sampleFit constSilh baseState (candidateKs 2) []
        = .ok (GAM.generate sampleFit { baseState with k := 2 }, [(0, 2)]) ∧
      (exceptOkState (GAM.get_optimal_clustering sampleFit constSilh
          baseState 2)).map (fun t => t.k) = some (selectBest [(0, 2)]).2 :=
  ⟨rfl,
    (get_optimal_final_regeneration sampleFit constSilh baseState 2
      (GAM.generate sampleFit { baseState with k := 2 }) [(0, 2)] rfl).2.1⟩

end GamSpec
